import Mathlib

/-!
Verification of the bulk-email sender (`app/__init__.py`, `app/mail/message.py`).

The Python program is shallowly embedded: file contents are `Option String`
(`none` = file absent), the recipient table is a list of records, external
effects (image rendering, HTML templating, the remote send call) are modelled
by an outcome oracle indexed by recipient position, and the batch loop of
`start` is a pure function producing the run's observable event trace
(send attempts, checkpoint writes, pacing pauses).
-/

namespace BulkEmail

/-! ### Checkpoint store (`get_last_sent` / `set_last_sent`) -/

/-- Python `str.isspace()` for one character: the CPython whitespace set —
`\t \n \v \f \r` (U+0009..U+000D), the separators U+001C..U+001F, space,
U+0085 (NEL), U+00A0 (NBSP), U+1680, U+2000..U+200A, U+2028, U+2029,
U+202F, U+205F and U+3000. -/
def pyIsSpace (c : Char) : Bool :=
  ([0x09, 0x0A, 0x0B, 0x0C, 0x0D, 0x1C, 0x1D, 0x1E, 0x1F, 0x20,
    0x85, 0xA0, 0x1680, 0x2000, 0x2001, 0x2002, 0x2003, 0x2004, 0x2005,
    0x2006, 0x2007, 0x2008, 0x2009, 0x200A, 0x2028, 0x2029, 0x202F,
    0x205F, 0x3000] : List Nat).contains c.toNat

/-- Python `str.strip()` with no argument: remove leading and trailing
characters of the Python whitespace set. -/
def strip (s : String) : String :=
  String.mk (((s.data.dropWhile pyIsSpace).reverse.dropWhile pyIsSpace).reverse)

/-- Source `get_last_sent` (lines 70-80): if the checkpoint file exists its
content is read and stripped; a non-empty remainder is returned, an empty one
(or an absent file) yields `None`.  The file is the `Option String` argument. -/
def get_last_sent (file : Option String) : Option String :=
  match file with
  | none => none
  | some content =>
    let last_email := strip content
    if last_email = "" then none else some last_email

/-- Source `set_last_sent` (lines 82-85): the file is opened with mode `'w'`
and the email written, so afterwards the file content is exactly `email`.
The returned value is the new file state. -/
def set_last_sent (email : String) : Option String :=
  some email

/-! ### Recipient records

`load_recipients` returns CSV rows as dictionaries; the runner reads only the
keys `'First Name'` (inside `generate_funny_image` / `generate_email_body`)
and `'Email'`, so a recipient record is embedded as these two fields. -/

structure Recipient where
  firstName : String
  Email : String
deriving DecidableEq

/-- The scan loop of `start` (lines 273-277): iterate with the running index,
set `start_index = i + 1` at the first record whose `'Email'` equals the
checkpoint and break; if no record matches, the initial `0` survives. -/
def computeStartIndexAux : List Recipient → String → Nat → Nat
  | [], _, _ => 0
  | recipient :: rest, last_sent_email, i =>
    if recipient.Email = last_sent_email then i + 1
    else computeStartIndexAux rest last_sent_email (i + 1)

/-- Source `start`, lines 270-277: `start_index` starts at `0` and the scan
runs only under `if last_sent_email:` (Python truthiness: `None` and the
empty string are falsy). -/
def computeStartIndex (recipients : List Recipient) (last_sent_email : Option String) : Nat :=
  match last_sent_email with
  | none => 0
  | some e => if e = "" then 0 else computeStartIndexAux recipients e 0

/-- Index of the first recipient whose email equals `e`, following the spec's
words: scan the sequence in order for the first matching record. -/
def firstMatchIdx : List Recipient → String → Option Nat
  | [], _ => none
  | recipient :: rest, e =>
    if recipient.Email = e then some 0
    else (firstMatchIdx rest e).map (· + 1)

/-- Modelled from the spec's words (§4.4 step 3): the resume offset is the
index immediately after the first checkpoint match, `0` when nothing matches
or the checkpoint is absent. -/
def specResumeOffset (recipients : List Recipient) (checkpoint : Option String) : Nat :=
  match checkpoint with
  | none => 0
  | some e =>
    match firstMatchIdx recipients e with
    | some k => k + 1
    | none => 0

theorem get_last_sent_ne_empty (f : Option String) (e : String)
    (h : get_last_sent f = some e) : e ≠ "" := by
  cases f with
  | none => simp [get_last_sent] at h
  | some content =>
    simp only [get_last_sent] at h
    by_cases hc : strip content = ""
    · simp [hc] at h
    · simp [hc] at h
      exact h ▸ hc

theorem computeStartIndexAux_eq_firstMatchIdx (rs : List Recipient) (e : String) (i : Nat) :
    computeStartIndexAux rs e i =
      match firstMatchIdx rs e with
      | some k => i + k + 1
      | none => 0 := by
  induction rs generalizing i with
  | nil => rfl
  | cons r rest ih =>
    simp only [computeStartIndexAux, firstMatchIdx]
    by_cases h : r.Email = e
    · simp [h]
    · simp only [h, if_false, ih (i + 1)]
      cases hm : firstMatchIdx rest e with
      | none => simp
      | some k => simp [Nat.add_assoc, Nat.add_comm, Nat.add_left_comm]

/-! ### The batch runner (`start`, lines 247-347)

External effects are modelled by an oracle `Nat → StepResult` giving, for the
recipient at each list position, where its try-block would fail (the
`generate_funny_image`, `generate_email_body` or `send_message` call raising)
or that all three succeed.  The run is observed through its event trace. -/

inductive StepResult where
  | renderFail
  | buildFail
  | sendFail
  | success
deriving DecidableEq

inductive Event where
  | sendAttempt (destination : String) (renderedFor : String)
  | checkpointWrite (email : String)
  | pauseLong
  | pauseShort
deriving DecidableEq

/-- Source lines 336-341: after a successful send number `n` of the run
(`n = i - start_index + 1`), sleep one hour when `n % 6 == 0`, otherwise ten
minutes. -/
def pacingEvent (n : Nat) : Event :=
  if n % 6 = 0 then Event.pauseLong else Event.pauseShort

/-- The normal-mode loop, lines 313-345: for each index from `start_index`,
render, build and send for the current recipient; on success write the
checkpoint and pause per the pacing rule; on any exception log and `break`.
`i` is the Python loop variable (the calls always have `start_index ≤ i`). -/
def sendLoop : List Recipient → Nat → Nat → (Nat → StepResult) → List Event
  | [], _, _, _ => []
  | recipient :: rest, i, start_index, outcome =>
    match outcome i with
    | .renderFail => []
    | .buildFail => []
    | .sendFail => [.sendAttempt recipient.Email recipient.Email]
    | .success =>
      .sendAttempt recipient.Email recipient.Email ::
      .checkpointWrite recipient.Email ::
      pacingEvent (i - start_index + 1) ::
      sendLoop rest (i + 1) start_index outcome

/-- The configuration keys read by `start` (`subject`, `test`,
`test_email_recipient`) and by `build_message` (`sender_email`). -/
structure RunConfig where
  subject : String
  test : Bool
  test_email_recipient : String
  sender_email : String
deriving DecidableEq

/-- Observable result of one `start` run: the event trace and whether the
process exited through `sys.exit(1)` (`errorExit = true`) rather than by a
normal `return` / falling off the end. -/
structure StartResult where
  trace : List Event
  errorExit : Bool
deriving DecidableEq

/-- Source `start`, lines 270-347, after config and recipients are loaded:
read the checkpoint, compute `start_index`, return at once when
`start_index >= total_recipients`; in test mode attempt one send of the first
recipient's content to the test address (exiting when the test address is
empty) and return; otherwise run the normal-mode loop.  The `recipients = []`
case inside the test branch is unreachable (it is guarded by
`start_index < total_recipients`); in Python `recipients[0]` would raise, so
it is modelled as an abnormal exit. -/
def start (config : RunConfig) (recipients : List Recipient) (checkpointFile : Option String)
    (outcome : Nat → StepResult) : StartResult :=
  let last_sent_email := get_last_sent checkpointFile
  let start_index := computeStartIndex recipients last_sent_email
  let total_recipients := recipients.length
  if total_recipients ≤ start_index then { trace := [], errorExit := false }
  else if config.test then
    if config.test_email_recipient = "" then { trace := [], errorExit := true }
    else
      match recipients with
      | [] => { trace := [], errorExit := true }
      | test_recipient :: _ =>
        match outcome 0 with
        | .renderFail => { trace := [], errorExit := false }
        | .buildFail => { trace := [], errorExit := false }
        | .sendFail =>
          { trace := [.sendAttempt config.test_email_recipient test_recipient.Email]
            errorExit := false }
        | .success =>
          { trace := [.sendAttempt config.test_email_recipient test_recipient.Email]
            errorExit := false }
  else
    { trace := sendLoop (recipients.drop start_index) start_index start_index outcome
      errorExit := false }

/-! ### Trace observations -/

/-- The checkpoint writes of a trace, in order. -/
def writesOf (t : List Event) : List String :=
  t.filterMap fun e =>
    match e with
    | .checkpointWrite m => some m
    | _ => none

/-- The destinations of the send attempts of a trace, in order. -/
def attemptsOf (t : List Event) : List String :=
  t.filterMap fun e =>
    match e with
    | .sendAttempt d _ => some d
    | _ => none

/-- Checks that every checkpoint write in a trace sits immediately after a
send attempt whose destination is the written email. -/
def writesFollowAttempts : List Event → Bool
  | [] => true
  | .checkpointWrite _ :: _ => false
  | .sendAttempt d _ :: .checkpointWrite e :: rest =>
    d == e && writesFollowAttempts rest
  | .sendAttempt _ _ :: rest => writesFollowAttempts rest
  | _ :: rest => writesFollowAttempts rest

/-- The longest all-successful run of recipients starting at position `i`:
exactly those for which the loop confirms a send (spec-side notion used to
state checkpoint monotonicity). -/
def successStreak : List Recipient → Nat → (Nat → StepResult) → List Recipient
  | [], _, _ => []
  | recipient :: rest, i, outcome =>
    if outcome i = .success then recipient :: successStreak rest (i + 1) outcome
    else []

/-! ### Trace lemmas for the normal-mode loop -/

theorem writesOf_pacing_cons (n : Nat) (t : List Event) :
    writesOf (pacingEvent n :: t) = writesOf t := by
  unfold pacingEvent
  split <;> simp [writesOf]

theorem attemptsOf_pacing_cons (n : Nat) (t : List Event) :
    attemptsOf (pacingEvent n :: t) = attemptsOf t := by
  unfold pacingEvent
  split <;> simp [attemptsOf]

theorem writesOf_sendLoop (rs : List Recipient) (i si : Nat) (o : Nat → StepResult) :
    writesOf (sendLoop rs i si o) = (successStreak rs i o).map (fun r => r.Email) := by
  induction rs generalizing i with
  | nil => rfl
  | cons r rest ih =>
    simp only [sendLoop, successStreak]
    cases h : o i with
    | renderFail => simp [h, writesOf]
    | buildFail => simp [h, writesOf]
    | sendFail => simp [h, writesOf]
    | success =>
      have hw : writesOf (Event.sendAttempt r.Email r.Email :: Event.checkpointWrite r.Email ::
          pacingEvent (i - si + 1) :: sendLoop rest (i + 1) si o) =
          r.Email :: writesOf (pacingEvent (i - si + 1) :: sendLoop rest (i + 1) si o) := by
        simp [writesOf]
      rw [hw, writesOf_pacing_cons, ih]
      simp [h]

theorem attemptsOf_sendLoop (rs : List Recipient) (i si : Nat) (o : Nat → StepResult) :
    ∃ m, attemptsOf (sendLoop rs i si o) = (rs.map (fun r => r.Email)).take m ∧
      m ≤ rs.length ∧ m ≤ (successStreak rs i o).length + 1 := by
  induction rs generalizing i with
  | nil => exact ⟨0, rfl, Nat.le_refl 0, Nat.zero_le 1⟩
  | cons r rest ih =>
    simp only [sendLoop, successStreak]
    cases h : o i with
    | renderFail => exact ⟨0, by simp [attemptsOf], Nat.zero_le _, Nat.zero_le _⟩
    | buildFail => exact ⟨0, by simp [attemptsOf], Nat.zero_le _, Nat.zero_le _⟩
    | sendFail =>
      refine ⟨1, by simp [attemptsOf], by simp, ?_⟩
      simp [h]
    | success =>
      obtain ⟨m, hm, hle, hstreak⟩ := ih (i + 1)
      refine ⟨m + 1, ?_, by simpa using Nat.succ_le_succ hle, ?_⟩
      · have ha : attemptsOf (Event.sendAttempt r.Email r.Email ::
            Event.checkpointWrite r.Email ::
            pacingEvent (i - si + 1) :: sendLoop rest (i + 1) si o) =
            r.Email :: attemptsOf (pacingEvent (i - si + 1) :: sendLoop rest (i + 1) si o) := by
          simp [attemptsOf]
        rw [ha, attemptsOf_pacing_cons, hm]
        simp [List.take_succ_cons]
      · simp only [h, if_pos rfl, eq_self_iff_true, if_true, List.length_cons]
        omega

theorem successStreak_length_le (rs : List Recipient) (j : Nat) (o : Nat → StepResult)
    (i : Nat) (hji : j ≤ i) (hfail : o i ≠ .success) :
    (successStreak rs j o).length ≤ i - j := by
  induction rs generalizing j with
  | nil => simp [successStreak]
  | cons r rest ih =>
    simp only [successStreak]
    by_cases h : o j = .success
    · have hne : j ≠ i := fun hji' => hfail (hji' ▸ h)
      have : (successStreak rest (j + 1) o).length ≤ i - (j + 1) :=
        ih (j + 1) (by omega)
      simp only [h, if_pos rfl, eq_self_iff_true, if_true, List.length_cons]
      omega
    · simp [h]

theorem writesFollowAttempts_sendLoop (rs : List Recipient) (i si : Nat)
    (o : Nat → StepResult) :
    writesFollowAttempts (sendLoop rs i si o) = true := by
  induction rs generalizing i with
  | nil => rfl
  | cons r rest ih =>
    simp only [sendLoop]
    cases h : o i with
    | renderFail => rfl
    | buildFail => rfl
    | sendFail => rfl
    | success =>
      have h1 : writesFollowAttempts (Event.sendAttempt r.Email r.Email ::
          Event.checkpointWrite r.Email ::
          pacingEvent (i - si + 1) :: sendLoop rest (i + 1) si o) =
          (r.Email == r.Email &&
            writesFollowAttempts (pacingEvent (i - si + 1) :: sendLoop rest (i + 1) si o)) := rfl
      have h2 : writesFollowAttempts (pacingEvent (i - si + 1) :: sendLoop rest (i + 1) si o) =
          writesFollowAttempts (sendLoop rest (i + 1) si o) := by
        unfold pacingEvent
        split <;> rfl
      rw [h1, h2, ih, beq_self_eq_true]
      rfl

/-! ### Claim C1 — resume offset -/

/-- C1: the resume offset computed by `start` from any checkpoint-file state
agrees with the specified value: the index immediately after the first
recipient whose email equals the checkpoint, `0` when no recipient matches
or the checkpoint is absent. -/
theorem resume_offset_agrees_with_spec (R : List Recipient) (f : Option String) :
    computeStartIndex R (get_last_sent f) = specResumeOffset R (get_last_sent f) := by
  cases hf : get_last_sent f with
  | none => rfl
  | some e =>
    have he : e ≠ "" := get_last_sent_ne_empty f e hf
    simp only [computeStartIndex, specResumeOffset, if_neg he,
      computeStartIndexAux_eq_firstMatchIdx]
    cases firstMatchIdx R e with
    | none => rfl
    | some k => simp [Nat.add_comm]

/-! ### Concrete fixtures for witnesses and counterexamples -/

def cfgNormal : RunConfig :=
  { subject := "hello", test := false, test_email_recipient := "t@x.com",
    sender_email := "me@x.com" }

def cfgTest : RunConfig :=
  { subject := "hello", test := true, test_email_recipient := "t@x.com",
    sender_email := "me@x.com" }

def alice : Recipient := { firstName := "Alice", Email := "alice@x.com" }

def bob : Recipient := { firstName := "Bob", Email := "bob@x.com" }

/-- A third recipient sharing Alice's email address (the recipient table is a
plain CSV, nothing in the code rejects duplicate addresses). -/
def aliceAgain : Recipient := { firstName := "Carol", Email := "alice@x.com" }

def oracleAll : Nat → StepResult := fun _ => .success

def oracleFailAt (k : Nat) : Nat → StepResult :=
  fun n => if n = k then .sendFail else .success

/-! ### Claim C2 — checkpoint monotonicity -/

/-- C2: in a normal-mode run the checkpoint writes are exactly the emails of
the recipients whose send the loop confirmed (one write per confirmed send,
in order, with exactly that recipient's email and nothing once a step fails),
and every write sits immediately after the send attempt it confirms. -/
theorem checkpoint_written_only_on_success (cfg : RunConfig) (R : List Recipient)
    (f : Option String) (o : Nat → StepResult) (htest : cfg.test = false) :
    writesOf (start cfg R f o).trace =
      (successStreak (R.drop (computeStartIndex R (get_last_sent f)))
        (computeStartIndex R (get_last_sent f)) o).map (fun r => r.Email) ∧
    writesFollowAttempts (start cfg R f o).trace = true := by
  unfold start
  by_cases hsi : R.length ≤ computeStartIndex R (get_last_sent f)
  · rw [if_pos hsi]
    have hdrop : R.drop (computeStartIndex R (get_last_sent f)) = [] :=
      List.drop_of_length_le hsi
    rw [hdrop]
    exact ⟨rfl, rfl⟩
  · rw [if_neg hsi, htest]
    simp only [Bool.false_eq_true, if_false]
    exact ⟨writesOf_sendLoop _ _ _ _, writesFollowAttempts_sendLoop _ _ _ _⟩

theorem checkpoint_written_only_on_success_witness :
    cfgNormal.test = false ∧
    (writesOf (start cfgNormal [alice, bob] none oracleAll).trace =
      (successStreak ([alice, bob].drop (computeStartIndex [alice, bob] (get_last_sent none)))
        (computeStartIndex [alice, bob] (get_last_sent none)) oracleAll).map (fun r => r.Email) ∧
    writesFollowAttempts (start cfgNormal [alice, bob] none oracleAll).trace = true) :=
  ⟨rfl, checkpoint_written_only_on_success cfgNormal [alice, bob] none oracleAll rfl⟩

/-! ### Claim C3 — fail-fast -/

/-- C3: in a normal-mode run whose step for the recipient at index `i` fails
(render, build or send), the attempted destinations are an initial segment of
the remaining recipient emails of length at most `i - start_index + 1`: no
recipient at an index beyond `i` is ever attempted. -/
theorem fail_fast_stops_loop (cfg : RunConfig) (R : List Recipient) (f : Option String)
    (o : Nat → StepResult) (i : Nat) (htest : cfg.test = false)
    (hsi : computeStartIndex R (get_last_sent f) ≤ i) (hfail : o i ≠ .success) :
    attemptsOf (start cfg R f o).trace =
      ((R.drop (computeStartIndex R (get_last_sent f))).map (fun r => r.Email)).take
        (attemptsOf (start cfg R f o).trace).length ∧
    (attemptsOf (start cfg R f o).trace).length ≤
      i - computeStartIndex R (get_last_sent f) + 1 := by
  unfold start
  by_cases hlen : R.length ≤ computeStartIndex R (get_last_sent f)
  · rw [if_pos hlen]
    exact ⟨rfl, Nat.zero_le _⟩
  · rw [if_neg hlen, htest]
    simp only [Bool.false_eq_true, if_false]
    obtain ⟨m, hm, hmlen, hmstreak⟩ :=
      attemptsOf_sendLoop (R.drop (computeStartIndex R (get_last_sent f)))
        (computeStartIndex R (get_last_sent f)) (computeStartIndex R (get_last_sent f)) o
    have hstreak :
        (successStreak (R.drop (computeStartIndex R (get_last_sent f)))
          (computeStartIndex R (get_last_sent f)) o).length ≤
        i - computeStartIndex R (get_last_sent f) :=
      successStreak_length_le _ _ o i hsi hfail
    have hlength :
        (attemptsOf (sendLoop (R.drop (computeStartIndex R (get_last_sent f)))
          (computeStartIndex R (get_last_sent f))
          (computeStartIndex R (get_last_sent f)) o)).length = m := by
      rw [hm, List.length_take, List.length_map, List.length_drop]
      have : m ≤ R.length - computeStartIndex R (get_last_sent f) := by
        simpa [List.length_drop] using hmlen
      omega
    constructor
    · rw [hlength, hm]
    · rw [hlength]
      omega

theorem fail_fast_stops_loop_witness :
    cfgNormal.test = false ∧
    computeStartIndex [alice, bob] (get_last_sent none) ≤ 0 ∧
    oracleFailAt 0 0 ≠ .success ∧
    (attemptsOf (start cfgNormal [alice, bob] none (oracleFailAt 0)).trace).length ≤
      0 - computeStartIndex [alice, bob] (get_last_sent none) + 1 :=
  ⟨rfl, by decide, by decide,
    (fail_fast_stops_loop cfgNormal [alice, bob] none (oracleFailAt 0) 0 rfl (by decide)
      (by decide)).2⟩

/-! ### Claim C7 — checkpoint read/write round-trip -/

/-- C7 counterexample: writing the one-space string and reading back yields
`none` (the read strips the content and treats the whitespace-only remainder
as no progress), not the written value, so the round-trip fails for the
whitespace-only string even though `write` stores it verbatim. -/
theorem whitespace_checkpoint_not_roundtripped :
    get_last_sent (set_last_sent " ") = none ∧
    get_last_sent (set_last_sent " ") ≠ some " " := by
  exact ⟨by decide, by decide⟩

/-- C7 amended: the read/write round-trip holds for every email that is
non-empty and free of leading or trailing whitespace (`strip email = email`,
which the source's `strip()` on read makes necessary); and `read` returns
`none` exactly as claimed when the file is absent or its content strips to
the empty string. -/
theorem checkpoint_roundtrip_amended (email : String)
    (h1 : strip email = email) (h2 : email ≠ "") :
    get_last_sent (set_last_sent email) = some email ∧
    get_last_sent none = none ∧
    ∀ s : String, strip s = "" → get_last_sent (some s) = none := by
  refine ⟨?_, rfl, ?_⟩
  · simp only [set_last_sent, get_last_sent, h1, if_neg h2]
  · intro s hs
    simp [get_last_sent, hs]

theorem checkpoint_roundtrip_amended_witness :
    (strip "a@b" = "a@b") ∧ ("a@b" ≠ "") ∧
    get_last_sent (set_last_sent "a@b") = some "a@b" :=
  ⟨by decide, by decide,
    (checkpoint_roundtrip_amended "a@b" (by decide) (by decide)).1⟩

/-! ### Claim C6 — idempotent no-op -/

theorem firstMatchIdx_getLast (R : List Recipient) (rl : Recipient)
    (hlast : R.getLast? = some rl)
    (huniq : ∀ k, k < R.length - 1 → (R[k]?.map fun r => r.Email) ≠ some rl.Email) :
    firstMatchIdx R rl.Email = some (R.length - 1) := by
  induction R with
  | nil => simp at hlast
  | cons r rest ih =>
    cases rest with
    | nil =>
      have : r = rl := by simpa using hlast
      subst this
      simp [firstMatchIdx]
    | cons r2 rest2 =>
      have hlast' : (r2 :: rest2).getLast? = some rl := by
        simpa [List.getLast?_cons_cons] using hlast
      have h0 : r.Email ≠ rl.Email := by
        have := huniq 0 (by simp)
        simpa using this
      have huniq' : ∀ k, k < (r2 :: rest2).length - 1 →
          ((r2 :: rest2)[k]?.map fun r => r.Email) ≠ some rl.Email := by
        intro k hk
        have := huniq (k + 1) (by simp at hk ⊢; omega)
        simpa using this
      rw [firstMatchIdx, if_neg h0, ih hlast' huniq']
      simp

/-- C6 counterexample: with the recipient list `[alice, bob, aliceAgain]` in
which the last recipient's email `"alice@x.com"` also occurs at index 0, a
checkpoint equal to the last recipient's email resumes at index 1 (the scan
stops at the first match), so the run attempts two sends instead of ending
immediately with zero sends. -/
theorem duplicate_email_breaks_idempotent_noop :
    ([alice, bob, aliceAgain].getLast?.map fun r => r.Email) = some "alice@x.com" ∧
    get_last_sent (some "alice@x.com") = some "alice@x.com" ∧
    (attemptsOf (start cfgNormal [alice, bob, aliceAgain] (some "alice@x.com")
      oracleAll).trace).length = 2 :=
  ⟨by decide, by decide, by decide⟩

/-- C6 amended: if the checkpoint equals the last recipient's email and that
email does not also occur at an earlier position (the spec's data-model
invariant that the email is a unique key), the run ends immediately with an
empty trace — zero sends attempted — and a normal, non-error exit. -/
theorem idempotent_noop_amended (cfg : RunConfig) (R : List Recipient) (f : Option String)
    (o : Nat → StepResult) (rl : Recipient)
    (hlast : R.getLast? = some rl)
    (hcp : get_last_sent f = some rl.Email)
    (huniq : ∀ k, k < R.length - 1 → (R[k]?.map fun r => r.Email) ≠ some rl.Email) :
    start cfg R f o = { trace := [], errorExit := false } := by
  have hne : rl.Email ≠ "" := get_last_sent_ne_empty f rl.Email hcp
  have hlen : 1 ≤ R.length := by
    cases R with
    | nil => simp at hlast
    | cons r rest => simp
  have hfi : firstMatchIdx R rl.Email = some (R.length - 1) :=
    firstMatchIdx_getLast R rl hlast huniq
  have hsi : computeStartIndex R (get_last_sent f) = R.length := by
    rw [hcp]
    show (if rl.Email = "" then 0 else computeStartIndexAux R rl.Email 0) = R.length
    rw [if_neg hne, computeStartIndexAux_eq_firstMatchIdx, hfi]
    show 0 + (R.length - 1) + 1 = R.length
    omega
  simp only [start]
  rw [hsi, if_pos (Nat.le_refl _)]

theorem idempotent_noop_amended_witness :
    [alice, bob].getLast? = some bob ∧
    get_last_sent (some "bob@x.com") = some bob.Email ∧
    (∀ k, k < [alice, bob].length - 1 →
      ([alice, bob][k]?.map fun r => r.Email) ≠ some bob.Email) ∧
    start cfgNormal [alice, bob] (some "bob@x.com") oracleAll =
      { trace := [], errorExit := false } :=
  ⟨by decide, by decide, by decide,
    idempotent_noop_amended cfgNormal [alice, bob] (some "bob@x.com") oracleAll bob
      (by decide) (by decide) (by decide)⟩

/-! ### Claim C5 — test-mode isolation -/

theorem start_test_mode (cfg : RunConfig) (r0 : Recipient) (rest : List Recipient)
    (f : Option String) (o : Nat → StepResult) (htest : cfg.test = true)
    (hte : cfg.test_email_recipient ≠ "")
    (hsi : computeStartIndex (r0 :: rest) (get_last_sent f) < (r0 :: rest).length) :
    start cfg (r0 :: rest) f o =
      { trace :=
          match o 0 with
          | .renderFail => []
          | .buildFail => []
          | .sendFail => [.sendAttempt cfg.test_email_recipient r0.Email]
          | .success => [.sendAttempt cfg.test_email_recipient r0.Email]
        errorExit := false } := by
  simp only [start, htest]
  rw [if_neg (Nat.not_le.mpr hsi)]
  simp only [if_true]
  rw [if_neg hte]
  cases o 0 <;> rfl

/-- C5 counterexample: a test-mode run with a stored checkpoint equal to the
last (only) recipient's email produces an empty trace — zero send attempts —
because the `start_index >= total_recipients` early return fires before the
test-mode branch; the claim promises exactly one attempt unaffected by the
checkpoint. -/
theorem test_mode_skipped_when_checkpoint_complete :
    cfgTest.test = true ∧
    get_last_sent (some "alice@x.com") = some alice.Email ∧
    (start cfgTest [alice] (some "alice@x.com") oracleAll).trace = [] :=
  ⟨rfl, by decide, by decide⟩

/-- C5 amended: in a test-mode run whose resume offset is below the recipient
count (otherwise the early `return` fires first and nothing is attempted),
at most one send is attempted — exactly one when rendering and building for
the first recipient of the full list succeed — its destination is the
configured test address, its content is rendered for the first recipient of
the full list, the checkpoint is never written, the run ends normally after
the attempt regardless of its success or failure, and the whole run is
unchanged under any stored checkpoint value whose resume offset is also
below the recipient count. -/
theorem test_mode_isolation_amended (cfg : RunConfig) (R : List Recipient)
    (f : Option String) (o : Nat → StepResult) (htest : cfg.test = true)
    (hte : cfg.test_email_recipient ≠ "")
    (hsi : computeStartIndex R (get_last_sent f) < R.length) :
    (start cfg R f o).errorExit = false ∧
    writesOf (start cfg R f o).trace = [] ∧
    (∀ r0 rest, R = r0 :: rest →
      (start cfg R f o).trace =
        match o 0 with
        | .renderFail => []
        | .buildFail => []
        | .sendFail => [.sendAttempt cfg.test_email_recipient r0.Email]
        | .success => [.sendAttempt cfg.test_email_recipient r0.Email]) ∧
    (∀ f' : Option String, computeStartIndex R (get_last_sent f') < R.length →
      start cfg R f' o = start cfg R f o) := by
  cases R with
  | nil => simp at hsi
  | cons r0 rest =>
    rw [start_test_mode cfg r0 rest f o htest hte hsi]
    refine ⟨rfl, ?_, ?_, ?_⟩
    · cases o 0 <;> simp [writesOf]
    · intro r0' rest' hR
      obtain ⟨h1, h2⟩ : r0' = r0 ∧ rest' = rest := by
        constructor <;> injection hR <;> simp_all
      subst h1
      rfl
    · intro f' hsi'
      rw [start_test_mode cfg r0 rest f' o htest hte hsi']

theorem test_mode_isolation_amended_witness :
    cfgTest.test = true ∧ cfgTest.test_email_recipient ≠ "" ∧
    computeStartIndex [alice, bob] (get_last_sent none) < [alice, bob].length ∧
    writesOf (start cfgTest [alice, bob] none oracleAll).trace = [] :=
  ⟨rfl, by decide, by decide,
    (test_mode_isolation_amended cfgTest [alice, bob] none oracleAll rfl (by decide)
      (by decide)).2.1⟩

/-! ### Claim C4 — pacing schedule -/

theorem sendLoop_success_length (rs : List Recipient) (i si : Nat) :
    (sendLoop rs i si oracleAll).length = 3 * rs.length := by
  induction rs generalizing i with
  | nil => rfl
  | cons r rest ih =>
    show (Event.sendAttempt r.Email r.Email :: Event.checkpointWrite r.Email ::
      pacingEvent (i - si + 1) :: sendLoop rest (i + 1) si oracleAll).length =
      3 * (rest.length + 1)
    simp only [List.length_cons, ih (i + 1)]
    ring

theorem sendLoop_success_get (rs : List Recipient) (i si : Nat) (hsi : si ≤ i)
    (k : Nat) (hk : k < rs.length) :
    (sendLoop rs i si oracleAll)[3 * k]? =
      (rs[k]?.map fun r => Event.sendAttempt r.Email r.Email) ∧
    (sendLoop rs i si oracleAll)[3 * k + 2]? = some (pacingEvent (i - si + k + 1)) := by
  induction rs generalizing i k with
  | nil => simp at hk
  | cons r rest ih =>
    have hexp : sendLoop (r :: rest) i si oracleAll =
        Event.sendAttempt r.Email r.Email :: Event.checkpointWrite r.Email ::
        pacingEvent (i - si + 1) :: sendLoop rest (i + 1) si oracleAll := rfl
    cases k with
    | zero =>
      constructor
      · rw [hexp]
        simp
      · rw [hexp]
        simp
    | succ k' =>
      have hk' : k' < rest.length := by
        simpa using Nat.lt_of_succ_lt_succ (by simpa using hk)
      obtain ⟨ih1, ih2⟩ := ih (i + 1) (Nat.le_succ_of_le hsi) k' hk'
      have h3 : 3 * (k' + 1) = 3 * k' + 1 + 1 + 1 := by ring
      have h32 : 3 * (k' + 1) + 2 = 3 * k' + 2 + 1 + 1 + 1 := by ring
      constructor
      · rw [hexp, h3]
        simp only [List.getElem?_cons_succ]
        rw [ih1]
      · rw [hexp, h32]
        simp only [List.getElem?_cons_succ]
        rw [ih2]
        have harith : i + 1 - si + k' + 1 = i - si + (k' + 1) + 1 := by omega
        rw [harith]

/-- C4 counterexample: a run over a single recipient whose send succeeds
produces the trace attempt, checkpoint write, ten-minute pause — the run's
final event is a pause, i.e. a pause follows the final send of the run,
which the claim says never happens. -/
theorem pause_follows_final_send :
    (start cfgNormal [alice] none oracleAll).trace =
      [Event.sendAttempt "alice@x.com" "alice@x.com",
        Event.checkpointWrite "alice@x.com", Event.pauseShort] ∧
    (start cfgNormal [alice] none oracleAll).trace.getLast? = some Event.pauseShort :=
  ⟨by decide, by decide⟩

/-- C4 amended: across the successful sends of a normal-mode run, send number
`n` (counted from the run's start) is immediately followed by a long pause
(one hour) when `n` is a multiple of 6 and by a short pause (ten minutes)
otherwise — including after the final send of the run, which the source's
loop also follows with a pause before the next iteration check. -/
theorem pacing_schedule_amended (cfg : RunConfig) (R : List Recipient) (f : Option String)
    (htest : cfg.test = false) :
    (start cfg R f oracleAll).trace.length =
      3 * (R.length - computeStartIndex R (get_last_sent f)) ∧
    ∀ n, 1 ≤ n → n ≤ R.length - computeStartIndex R (get_last_sent f) →
      (start cfg R f oracleAll).trace[3 * (n - 1) + 2]? =
        some (if n % 6 = 0 then Event.pauseLong else Event.pauseShort) ∧
      (start cfg R f oracleAll).trace[3 * (n - 1)]? =
        ((R.drop (computeStartIndex R (get_last_sent f)))[n - 1]?.map
          fun r => Event.sendAttempt r.Email r.Email) := by
  unfold start
  by_cases hlen : R.length ≤ computeStartIndex R (get_last_sent f)
  · rw [if_pos hlen]
    constructor
    · simp
      omega
    · intro n hn1 hn2
      omega
  · rw [if_neg hlen, htest]
    simp only [Bool.false_eq_true, if_false]
    constructor
    · rw [sendLoop_success_length]
      simp [List.length_drop]
    · intro n hn1 hn2
      have hk : n - 1 < (R.drop (computeStartIndex R (get_last_sent f))).length := by
        rw [List.length_drop]
        omega
      obtain ⟨hget, hpause⟩ :=
        sendLoop_success_get (R.drop (computeStartIndex R (get_last_sent f)))
          (computeStartIndex R (get_last_sent f)) (computeStartIndex R (get_last_sent f))
          (Nat.le_refl _) (n - 1) hk
      refine ⟨?_, hget⟩
      rw [hpause]
      have harith : computeStartIndex R (get_last_sent f) -
          computeStartIndex R (get_last_sent f) + (n - 1) + 1 = n := by omega
      rw [harith]
      rfl

theorem pacing_schedule_amended_witness :
    cfgNormal.test = false ∧
    (start cfgNormal [alice, bob] none oracleAll).trace.length =
      3 * ([alice, bob].length - computeStartIndex [alice, bob] (get_last_sent none)) :=
  ⟨rfl, (pacing_schedule_amended cfgNormal [alice, bob] none rfl).1⟩

/-! ### Recipient source (`load_recipients`, lines 52-68)

A CSV file is embedded as its header row (`reader.fieldnames`) plus the data
rows as lists of cell strings; `csv.DictReader` pairs each row's cells with
the header names, which `List.zip` models for the string-valued entries. -/

structure CSVFile where
  fieldnames : List String
  rows : List (List String)

/-- The `required_headers` set of `load_recipients` (line 60). -/
def required_headers : List String :=
  ["First Name", "Last Name", "Email", "Phone", "Address", "Profession",
    "Stage", "Industry", "LinkedIn"]

/-- Python `required_headers.issubset(reader.fieldnames)`: every required
header occurs among the field names. -/
def issubset : List String → List String → Bool
  | [], _ => true
  | h :: t, fieldnames => if h ∈ fieldnames then issubset t fieldnames else false

/-- The row loop of `load_recipients` (lines 65-66): append one dictionary
per row, pairing field names with the row's cells in file order. -/
def readRows : List (List String) → List String → List (List (String × String))
  | [], _ => []
  | row :: rest, fieldnames => fieldnames.zip row :: readRows rest fieldnames

/-- Source `load_recipients`: reject the file (here `none`; in the source
`sys.exit(1)`) when a required header is missing, before any row is read;
otherwise return all rows as dictionaries in file order. -/
def load_recipients (f : CSVFile) : Option (List (List (String × String))) :=
  if issubset required_headers f.fieldnames then some (readRows f.rows f.fieldnames)
  else none

theorem issubset_eq_true_iff (hs fieldnames : List String) :
    issubset hs fieldnames = true ↔ ∀ h ∈ hs, h ∈ fieldnames := by
  induction hs with
  | nil => simp [issubset]
  | cons h t ih =>
    simp only [issubset]
    by_cases hh : h ∈ fieldnames
    · simp [hh, ih]
    · simp [hh]

theorem readRows_length (rows : List (List String)) (fieldnames : List String) :
    (readRows rows fieldnames).length = rows.length := by
  induction rows with
  | nil => rfl
  | cons row rest ih => simp [readRows, ih]

theorem readRows_get (rows : List (List String)) (fieldnames : List String)
    (k : Nat) :
    (readRows rows fieldnames)[k]? = (rows[k]?.map fun row => fieldnames.zip row) := by
  induction rows generalizing k with
  | nil => simp [readRows]
  | cons row rest ih =>
    cases k with
    | zero => simp [readRows]
    | succ k' => simp [readRows, ih]

/-! ### Claim C8 — schema validation -/

/-- C8: a source file missing any one required column header is rejected
with no partial results before any recipient record is produced; a file
containing every required header — extra columns allowed — yields exactly
one record per data row, in file order, each pairing the header names with
that row's cells (empty cells staying empty strings). -/
theorem schema_validation_no_partial_results (f : CSVFile) :
    ((∃ h, h ∈ required_headers ∧ h ∉ f.fieldnames) → load_recipients f = none) ∧
    ((∀ h ∈ required_headers, h ∈ f.fieldnames) →
      ∃ recs, load_recipients f = some recs ∧ recs.length = f.rows.length ∧
        ∀ k, k < f.rows.length →
          recs[k]? = (f.rows[k]?.map fun row => f.fieldnames.zip row)) := by
  constructor
  · intro ⟨h, hmem, hnot⟩
    have hsub : issubset required_headers f.fieldnames = false := by
      by_contra hc
      have : issubset required_headers f.fieldnames = true := by
        cases hval : issubset required_headers f.fieldnames
        · exact absurd hval hc
        · rfl
      exact hnot ((issubset_eq_true_iff _ _).mp this h hmem)
    simp [load_recipients, hsub]
  · intro hall
    have hsub : issubset required_headers f.fieldnames = true :=
      (issubset_eq_true_iff _ _).mpr hall
    refine ⟨readRows f.rows f.fieldnames, ?_, readRows_length _ _, ?_⟩
    · simp [load_recipients, hsub]
    · intro k _
      exact readRows_get f.rows f.fieldnames k

/-- A source file whose header row lacks six of the required headers. -/
def csvMissingHeaders : CSVFile :=
  { fieldnames := ["First Name", "Last Name", "Email"],
    rows := [["Ann", "", "a@x.com"]] }

/-- A source file with every required header plus an extra column, and one
row containing empty cells. -/
def csvAllHeaders : CSVFile :=
  { fieldnames := required_headers ++ ["Extra"],
    rows := [["Ann", "", "a@x.com", "", "", "", "", "", "", "x"]] }

theorem schema_validation_no_partial_results_witness :
    ("Phone" ∈ required_headers ∧ "Phone" ∉ csvMissingHeaders.fieldnames) ∧
    load_recipients csvMissingHeaders = none ∧
    (∃ recs, load_recipients csvAllHeaders = some recs ∧ recs.length = 1) := by
  refine ⟨⟨by decide, by decide⟩, ?_, ?_⟩
  · exact (schema_validation_no_partial_results csvMissingHeaders).1
      ⟨"Phone", by decide, by decide⟩
  · obtain ⟨recs, h1, h2, _⟩ :=
      (schema_validation_no_partial_results csvAllHeaders).2 (by decide)
    exact ⟨recs, h1, by rw [h2]; rfl⟩

/-! ### Base64 (`base64.urlsafe_b64encode` and its inverse)

Bytes are naturals below 256.  Encoding takes three bytes to four output
characters, with `=` padding for a one- or two-byte tail, over the URL-safe
alphabet (`-` and `_` for the last two values). -/

def b64urlAlphabet : List Char :=
  ['A', 'B', 'C', 'D', 'E', 'F', 'G', 'H', 'I', 'J', 'K', 'L', 'M',
    'N', 'O', 'P', 'Q', 'R', 'S', 'T', 'U', 'V', 'W', 'X', 'Y', 'Z',
    'a', 'b', 'c', 'd', 'e', 'f', 'g', 'h', 'i', 'j', 'k', 'l', 'm',
    'n', 'o', 'p', 'q', 'r', 's', 't', 'u', 'v', 'w', 'x', 'y', 'z',
    '0', '1', '2', '3', '4', '5', '6', '7', '8', '9', '-', '_']

/-- The standard alphabet, used by `email.encoders.encode_base64` for
attachment payloads inside the MIME serialization. -/
def b64stdAlphabet : List Char :=
  ['A', 'B', 'C', 'D', 'E', 'F', 'G', 'H', 'I', 'J', 'K', 'L', 'M',
    'N', 'O', 'P', 'Q', 'R', 'S', 'T', 'U', 'V', 'W', 'X', 'Y', 'Z',
    'a', 'b', 'c', 'd', 'e', 'f', 'g', 'h', 'i', 'j', 'k', 'l', 'm',
    'n', 'o', 'p', 'q', 'r', 's', 't', 'u', 'v', 'w', 'x', 'y', 'z',
    '0', '1', '2', '3', '4', '5', '6', '7', '8', '9', '+', '/']

def b64encChar (n : Nat) : Char := b64urlAlphabet.getD n 'A'

def b64stdChar (n : Nat) : Char := b64stdAlphabet.getD n 'A'

def b64decCharAux : List Char → Char → Nat → Nat
  | [], _, _ => 0
  | a :: rest, c, i => if a = c then i else b64decCharAux rest c (i + 1)

def b64decChar (c : Char) : Nat := b64decCharAux b64urlAlphabet c 0

/-- Three input bytes become the four 6-bit groups of their 24-bit
concatenation; a two-byte tail yields three groups and one `=`, a one-byte
tail two groups and two `=`. -/
def b64encodeGroups (tbl : Nat → Char) : List Nat → List Char
  | b1 :: b2 :: b3 :: rest =>
    tbl (b1 / 4) :: tbl (b1 % 4 * 16 + b2 / 16) :: tbl (b2 % 16 * 4 + b3 / 64) ::
      tbl (b3 % 64) :: b64encodeGroups tbl rest
  | [b1, b2] => [tbl (b1 / 4), tbl (b1 % 4 * 16 + b2 / 16), tbl (b2 % 16 * 4), '=']
  | [b1] => [tbl (b1 / 4), tbl (b1 % 4 * 16), '=', '=']
  | [] => []

/-- Inverse of `b64encodeGroups` over the URL-safe alphabet: four characters
yield three bytes, or fewer at a padded tail. -/
def b64decodeGroups : List Char → List Nat
  | c1 :: c2 :: c3 :: c4 :: rest =>
    if c3 = '=' then [b64decChar c1 * 4 + b64decChar c2 / 16]
    else if c4 = '=' then
      [b64decChar c1 * 4 + b64decChar c2 / 16,
        b64decChar c2 % 16 * 16 + b64decChar c3 / 4]
    else
      (b64decChar c1 * 4 + b64decChar c2 / 16) ::
        (b64decChar c2 % 16 * 16 + b64decChar c3 / 4) ::
        (b64decChar c3 % 4 * 64 + b64decChar c4) :: b64decodeGroups rest
  | _ => []

/-- Python `base64.urlsafe_b64encode(...).decode()` on a byte string. -/
def urlsafe_b64encode (bytes : List Nat) : String :=
  String.mk (b64encodeGroups b64encChar bytes)

/-- Reversal of the transport encoding: URL-safe base64 decoding back to the
byte string. -/
def urlsafe_b64decode (s : String) : List Nat :=
  b64decodeGroups s.data

theorem b64decChar_encChar : ∀ n, n < 64 → b64decChar (b64encChar n) = n := by decide

theorem b64encChar_ne_pad (n : Nat) : b64encChar n ≠ '=' := by
  rcases Nat.lt_or_ge n 64 with h | h
  · revert h
    exact fun h => by interval_cases n <;> decide
  · unfold b64encChar
    have hlen : b64urlAlphabet.length = 64 := by decide
    rw [List.getD_eq_default]
    · decide
    · omega

/-- Custom induction: a byte list is consumed three bytes at a time. -/
def threeChunkInduction {motive : List Nat → Prop} (nil : motive [])
    (one : ∀ b1, motive [b1]) (two : ∀ b1 b2, motive [b1, b2])
    (cons3 : ∀ b1 b2 b3 rest, motive rest → motive (b1 :: b2 :: b3 :: rest)) :
    ∀ bs, motive bs
  | [] => nil
  | [b1] => one b1
  | [b1, b2] => two b1 b2
  | b1 :: b2 :: b3 :: rest =>
    cons3 b1 b2 b3 rest (threeChunkInduction nil one two cons3 rest)

theorem b64groups_roundtrip (bs : List Nat) (hb : ∀ b ∈ bs, b < 256) :
    b64decodeGroups (b64encodeGroups b64encChar bs) = bs := by
  induction bs using threeChunkInduction with
  | nil => rfl
  | one b1 =>
    have h1 : b1 < 256 := hb b1 (by simp)
    show b64decodeGroups [b64encChar (b1 / 4), b64encChar (b1 % 4 * 16), '=', '='] = [b1]
    rw [b64decodeGroups, if_pos rfl]
    rw [b64decChar_encChar (b1 / 4) (by omega), b64decChar_encChar (b1 % 4 * 16) (by omega)]
    have : b1 / 4 * 4 + b1 % 4 * 16 / 16 = b1 := by omega
    rw [this]
  | two b1 b2 =>
    have h1 : b1 < 256 := hb b1 (by simp)
    have h2 : b2 < 256 := hb b2 (by simp)
    show b64decodeGroups [b64encChar (b1 / 4), b64encChar (b1 % 4 * 16 + b2 / 16),
      b64encChar (b2 % 16 * 4), '='] = [b1, b2]
    rw [b64decodeGroups, if_neg (b64encChar_ne_pad _), if_pos rfl]
    rw [b64decChar_encChar (b1 / 4) (by omega),
      b64decChar_encChar (b1 % 4 * 16 + b2 / 16) (by omega),
      b64decChar_encChar (b2 % 16 * 4) (by omega)]
    have e1 : b1 / 4 * 4 + (b1 % 4 * 16 + b2 / 16) / 16 = b1 := by omega
    have e2 : (b1 % 4 * 16 + b2 / 16) % 16 * 16 + b2 % 16 * 4 / 4 = b2 := by omega
    rw [e1, e2]
  | cons3 b1 b2 b3 rest ih =>
    have h1 : b1 < 256 := hb b1 (by simp)
    have h2 : b2 < 256 := hb b2 (by simp)
    have h3 : b3 < 256 := hb b3 (by simp)
    have hrest : ∀ b ∈ rest, b < 256 := fun b hmem => hb b (by simp [hmem])
    show b64decodeGroups (b64encChar (b1 / 4) :: b64encChar (b1 % 4 * 16 + b2 / 16) ::
      b64encChar (b2 % 16 * 4 + b3 / 64) :: b64encChar (b3 % 64) ::
      b64encodeGroups b64encChar rest) = b1 :: b2 :: b3 :: rest
    rw [b64decodeGroups, if_neg (b64encChar_ne_pad _), if_neg (b64encChar_ne_pad _)]
    rw [b64decChar_encChar (b1 / 4) (by omega),
      b64decChar_encChar (b1 % 4 * 16 + b2 / 16) (by omega),
      b64decChar_encChar (b2 % 16 * 4 + b3 / 64) (by omega),
      b64decChar_encChar (b3 % 64) (by omega)]
    have e1 : b1 / 4 * 4 + (b1 % 4 * 16 + b2 / 16) / 16 = b1 := by omega
    have e2 : (b1 % 4 * 16 + b2 / 16) % 16 * 16 + (b2 % 16 * 4 + b3 / 64) / 4 = b2 := by
      omega
    have e3 : (b2 % 16 * 4 + b3 / 64) % 4 * 64 + b3 % 64 = b3 := by omega
    rw [e1, e2, e3, ih hrest]

/-! ### MIME messages (`build_message`, `app/__init__.py` lines 167-202)

A MIME document is a tree: leaf text parts (`MIMEText`), leaf binary parts
(`MIMEImage` / `MIMEBase`, payload transferred base64), and multipart
containers.  `headers` holds the headers set on the object after
construction (`To`, `From`, `Subject`, `Content-ID`, `Content-Disposition`);
the serializer emits the constructor-determined `Content-Type` line itself.
`as_bytes` is the canonical wire form: the Python generator chooses fresh
multipart boundaries at serialization time, modelled deterministically from
the nesting depth. -/

inductive MIMEPart where
  | text (subtype : String) (headers : List (String × String)) (content : String)
  | binary (maintype subtype : String) (headers : List (String × String))
    (payload : List Nat)
  | multipart (subtype : String) (headers : List (String × String))
    (parts : List MIMEPart)

def serializeHeaderLines (hs : List (String × String)) : String :=
  String.join (hs.map fun h => h.1 ++ ": " ++ h.2 ++ "\n")

def boundaryAt (depth : Nat) : String := "=========" ++ toString depth ++ "=="

mutual

def serializePart : MIMEPart → Nat → String
  | .text subtype hs content, _ =>
    serializeHeaderLines (("Content-Type", "text/" ++ subtype) :: hs) ++ "\n" ++
      content ++ "\n"
  | .binary maintype subtype hs payload, _ =>
    serializeHeaderLines (("Content-Type", maintype ++ "/" ++ subtype) ::
        ("Content-Transfer-Encoding", "base64") :: hs) ++ "\n" ++
      String.mk (b64encodeGroups b64stdChar payload) ++ "\n"
  | .multipart subtype hs parts, depth =>
    serializeHeaderLines (("Content-Type", "multipart/" ++ subtype ++
        "; boundary=" ++ boundaryAt depth) :: hs) ++ "\n" ++
      serializeParts parts (boundaryAt depth) (depth + 1) ++
      "--" ++ boundaryAt depth ++ "--\n"

def serializeParts : List MIMEPart → String → Nat → String
  | [], _, _ => ""
  | p :: ps, boundary, depth =>
    "--" ++ boundary ++ "\n" ++ serializePart p depth ++
      serializeParts ps boundary depth

end

def strBytes (s : String) : List Nat := s.toUTF8.toList.map fun b => b.toNat

/-- Source `msg_root.as_bytes()`: the message serialized to its wire-form bytes. -/
def as_bytes (m : MIMEPart) : List Nat := strBytes (serializePart m 0)

def lookupHeader : List (String × String) → String → Option String
  | [], _ => none
  | (k, v) :: rest, name => if k = name then some v else lookupHeader rest name

def getHeader (m : MIMEPart) (name : String) : Option String :=
  match m with
  | .text _ hs _ => lookupHeader hs name
  | .binary _ _ hs _ => lookupHeader hs name
  | .multipart _ hs _ => lookupHeader hs name

mutual

def containsBodyPart : MIMEPart → String → Bool
  | .text _ _ content, b => content == b
  | .binary _ _ _ _, _ => false
  | .multipart _ _ parts, b => containsBodyPartList parts b

def containsBodyPartList : List MIMEPart → String → Bool
  | [], _ => false
  | p :: ps, b => containsBodyPart p b || containsBodyPartList ps b

end

/-- Source `add_attachment` (lines 204-219), given the attachment's file
content: a `MIMEBase('application', 'octet-stream')` part whose payload is
the file's bytes (base64-transferred by `encoders.encode_base64`) with a
`Content-Disposition: attachment; filename="..."` header. -/
def attachmentPart (filename : String) (data : List Nat) : MIMEPart :=
  MIMEPart.binary "application" "octet-stream"
    [("Content-Disposition", "attachment; filename=\"" ++ filename ++ "\"")] data

/-- Source `build_message` lines 174-199, up to the encoding step: the
`related` root with `To`/`From`/`Subject`, the `alternative` child holding
the HTML body, the inline GIF part only when both `gif_data` and `gif_cid`
are truthy (non-empty), and one part per attachment.  Attachments are given
as (filename, file content) pairs; `None` is the empty list. -/
def build_message_root (destination subject body : String) (gif_data : List Nat)
    (gif_cid : String) (attachments : List (String × List Nat))
    (sender_email : String) : MIMEPart :=
  let headers := [("To", destination), ("From", sender_email), ("Subject", subject)]
  let msg_alternative := MIMEPart.multipart "alternative" [] [MIMEPart.text "html" [] body]
  let imageParts :=
    if gif_data ≠ [] ∧ gif_cid ≠ "" then
      [MIMEPart.binary "image" "gif"
        [("Content-ID", "<" ++ gif_cid ++ ">"),
          ("Content-Disposition", "inline; filename=\"funny_sparky.gif\"")] gif_data]
    else []
  let attachParts := attachments.map fun a => attachmentPart a.1 a.2
  MIMEPart.multipart "related" headers (msg_alternative :: imageParts ++ attachParts)

/-- Source `build_message` line 201: the assembled root is serialized and
URL-safe base64 encoded into the `'raw'` payload handed to the gateway. -/
def build_message (destination subject body : String) (gif_data : List Nat)
    (gif_cid : String) (attachments : List (String × List Nat))
    (sender_email : String) : String :=
  urlsafe_b64encode (as_bytes (build_message_root destination subject body gif_data
    gif_cid attachments sender_email))

theorem strBytes_lt_256 (s : String) : ∀ b ∈ strBytes s, b < 256 := by
  intro b hmem
  obtain ⟨u, _, rfl⟩ := List.mem_map.mp hmem
  exact u.toNat_lt

/-! ### Claim C9 — message build round-trip -/

/-- C9: decoding the URL-safe base64 transport encoding of the envelope
produced by `build_message` recovers exactly the wire-form bytes of the
assembled MIME document, whose `To` header is the destination, whose
`Subject` header is the subject, and which contains a body part equal to the
given HTML body. -/
theorem build_message_roundtrip (destination subject body : String) (gif_data : List Nat)
    (gif_cid : String) (attachments : List (String × List Nat)) (sender_email : String) :
    urlsafe_b64decode (build_message destination subject body gif_data gif_cid
        attachments sender_email) =
      as_bytes (build_message_root destination subject body gif_data gif_cid
        attachments sender_email) ∧
    getHeader (build_message_root destination subject body gif_data gif_cid
        attachments sender_email) "To" = some destination ∧
    getHeader (build_message_root destination subject body gif_data gif_cid
        attachments sender_email) "Subject" = some subject ∧
    containsBodyPart (build_message_root destination subject body gif_data gif_cid
        attachments sender_email) body = true := by
  refine ⟨?_, ?_, ?_, ?_⟩
  · unfold build_message urlsafe_b64decode urlsafe_b64encode
    exact b64groups_roundtrip _ (strBytes_lt_256 _)
  · show lookupHeader [("To", destination), ("From", sender_email), ("Subject", subject)]
      "To" = some destination
    rw [lookupHeader, if_pos rfl]
  · show lookupHeader [("To", destination), ("From", sender_email), ("Subject", subject)]
      "Subject" = some subject
    rw [lookupHeader, if_neg (by decide : ¬ ("To" : String) = "Subject"), lookupHeader,
      if_neg (by decide : ¬ ("From" : String) = "Subject"), lookupHeader, if_pos rfl]
  · simp [build_message_root, containsBodyPart, containsBodyPartList]

/-! ### Claim C10 — falsy inline-image inputs -/

/-- C10: when the inline image data or the content identifier is empty, the
built envelope contains no inline image part — just the `related` root with
the `alternative` HTML part plus any attachment parts — no error is raised,
and the `To`, `From` and `Subject` headers are unchanged. -/
theorem empty_gif_omits_inline_image (destination subject body : String)
    (gif_data : List Nat) (gif_cid : String) (attachments : List (String × List Nat))
    (sender_email : String) (hfalsy : gif_data = [] ∨ gif_cid = "") :
    build_message_root destination subject body gif_data gif_cid attachments
        sender_email =
      MIMEPart.multipart "related"
        [("To", destination), ("From", sender_email), ("Subject", subject)]
        (MIMEPart.multipart "alternative" [] [MIMEPart.text "html" [] body] ::
          attachments.map fun a => attachmentPart a.1 a.2) := by
  have hcond : ¬ (gif_data ≠ [] ∧ gif_cid ≠ "") := by
    rcases hfalsy with h | h <;> simp [h]
  unfold build_message_root
  rw [if_neg hcond]
  simp

theorem empty_gif_omits_inline_image_witness :
    (([] : List Nat) = [] ∨ ("cid" : String) = "") ∧
    build_message_root "d@x" "s" "<p>b</p>" [] "cid" [] "me@x" =
      MIMEPart.multipart "related" [("To", "d@x"), ("From", "me@x"), ("Subject", "s")]
        [MIMEPart.multipart "alternative" [] [MIMEPart.text "html" [] "<p>b</p>"]] :=
  ⟨Or.inl rfl,
    empty_gif_omits_inline_image "d@x" "s" "<p>b</p>" [] "cid" [] "me@x" (Or.inl rfl)⟩

end BulkEmail
